import Mathlib

/-!
Verification of the transaction ingestion and normalization pipeline of the
Budget-Tracker repository (src/budget_tracker.py), shallowly embedded in Lean.

The embedding covers:
* `clean_description` (lines 48-72 of the source): trims the text, then runs
  `re.sub` once for each of seven anchored, case-insensitive payment-processor
  patterns in a fixed order, and finally collapses whitespace runs.
* `clean_transaction_data` (lines 88-124): the column-mapped pipeline that
  normalizes dates, descriptions, amounts and categories and filters rows.

Modelling conventions:
* A cell is either null (pandas NaN) or text.  Numeric source cells are
  represented by their decimal text, matching what `astype(str)` produces;
  `astype(str)` turns null into the literal text "nan".
* `pd.to_datetime` is modelled for the slash format `MM/DD/YYYY` and the ISO
  format `YYYY-MM-DD` (with calendar validity and leap years); any other
  non-null text raises, exactly as pandas raises `ValueError` on text it
  cannot parse, and a null cell gives NaT.  The raised exception is caught by
  the function's catch-all handler, which returns a batch-level error.
* `pd.to_numeric(..., errors~coerce)` is modelled for optionally signed
  decimal literals; anything else coerces to NaN, here `Option.none`.
* Amounts are rational numbers; the source's floats never leave the range
  where decimal arithmetic is exact for the behaviours claimed.
* Whitespace is the ASCII whitespace set matched by Python's `\s` and
  `str.strip` / `str.split` on ASCII data.
-/

namespace BudgetTracker

/-- The ASCII whitespace characters recognized by Python's `str.strip`,
`str.split` and the regex class `\s`. -/
def isSpace (c : Char) : Bool :=
  c = ' ' || c = '\t' || c = '\n' || c = '\r' || c = '\x0b' || c = '\x0c'

/-- Python `str.strip`: drop whitespace from both ends. -/
def stripL (cs : List Char) : List Char :=
  ((cs.dropWhile isSpace).reverse.dropWhile isSpace).reverse

/-- `str.strip` on strings (pandas `.str.strip()` applies it cellwise). -/
def stripStr (s : String) : String := ⟨stripL s.toList⟩

/-- Emit the accumulated word (if nonempty) in front of `rest`; helper for
`wordsAux`. -/
def flushAcc (acc : List Char) (rest : List (List Char)) : List (List Char) :=
  match acc with
  | [] => rest
  | _ :: _ => acc.reverse :: rest

/-- Worker for Python `str.split()` with no separator: split on whitespace
runs, discarding empty pieces.  `acc` holds the current word reversed. -/
def wordsAux : List Char → List Char → List (List Char)
  | [], acc => flushAcc acc []
  | c :: cs, acc =>
    if isSpace c then flushAcc acc (wordsAux cs []) else wordsAux cs (c :: acc)

/-- Python `text.split()`. -/
def words (cs : List Char) : List (List Char) := wordsAux cs []

/-- Python `' '.join(ws)`. -/
def joinSp : List (List Char) → List Char
  | [] => []
  | [w] => w
  | w :: ws => w ++ ' ' :: joinSp ws

/-- Case-insensitive literal match at the start of the text (the body of the
source's anchored regexes before the trailing whitespace class); returns the
rest of the text on success. -/
def matchCI : List Char → List Char → Option (List Char)
  | [], rest => some rest
  | _ :: _, [] => none
  | p :: ps, c :: cs => if p.toLower = c.toLower then matchCI ps cs else none

/-- One `re.sub(pat, text)` call for an anchored pattern of the shape
`literal` followed by optional whitespace: if the literal matches at the
start (ignoring case), remove it and the following whitespace run. -/
def sub_pat (pat t : List Char) : List Char :=
  match matchCI pat t with
  | some rest => rest.dropWhile isSpace
  | none => t

/-- The literal parts of `prefixes_to_remove` (source lines 56-64), in the
source's order; each is followed by an optional-whitespace class in the
regex, handled by `sub_pat`. -/
def patList : List (List Char) :=
  ["TST*".toList, "SQ *".toList, "PP*".toList, "SP *".toList,
   "PAYPAL *".toList, "POS".toList, "DEBIT".toList]

/-- The source's `for` loop over `prefixes_to_remove`: every pattern is
applied once, in order, each to the result of the previous one. -/
def applyPats (t : List Char) : List Char :=
  patList.foldl (fun acc pat => sub_pat pat acc) t

/-- Does some listed pattern match (case-insensitively) at the start of the
text? -/
def startsWithAny (t : List Char) : Bool :=
  patList.any (fun pat => (matchCI pat t).isSome)

/-- `startsWithAny` on strings. -/
def startsWithAnyStr (s : String) : Bool := startsWithAny s.toList

/-- `clean_description` on character lists: the source returns "" for empty
input, else strips, runs the pattern loop, and rejoins the whitespace-split
words with single spaces. -/
def cleanDescL (cs : List Char) : List Char :=
  if cs = [] then [] else joinSp (words (applyPats (stripL cs)))

/-- `clean_description` (source lines 48-72) on a string input.  `pd.isna`
is false for every string, so only the `description == ""` guard of line 50
is reachable on this type. -/
def clean_description (s : String) : String := ⟨cleanDescL s.toList⟩

/-- A raw cell of the uploaded table: pandas NaN or text.  Numeric source
cells are represented by their decimal text (see the module comment). -/
inductive Cell where
  | null : Cell
  | str : String → Cell
deriving DecidableEq

/-- `astype(str)` on one cell: NaN stringifies to the literal text "nan". -/
def stringifyCell : Cell → String
  | Cell.null => "nan"
  | Cell.str s => s

/-- `clean_description` applied to a raw cell, as the source function behaves
when handed a possibly-NaN value directly (its `pd.isna` guard, line 50).
The pipeline itself never takes this path: it stringifies first. -/
def clean_description_cell : Cell → String
  | Cell.null => ""
  | Cell.str s => clean_description s

/-- A row maps column names to cells.  Columns of the table that are absent
from the association list are read as null. -/
abbrev Row := List (String × Cell)

/-- The raw tabular input: the header (pandas `df.columns`) and the rows. -/
structure Table where
  header : List String
  rows : List Row
deriving DecidableEq

/-- Read one cell of a row (a column present in the header is null when the
row carries no entry for it). -/
def cellOf (r : Row) (c : String) : Cell := (r.lookup c).getD Cell.null

/-- Split a character list on one separator character. -/
def splitOnCh (sep : Char) : List Char → List Char → List (List Char)
  | [], acc => [acc.reverse]
  | c :: cs, acc =>
    if c = sep then acc.reverse :: splitOnCh sep cs [] else splitOnCh sep cs (c :: acc)

/-- Value of a digit string (caller checks the digits). -/
def digitsVal (l : List Char) : Nat := l.foldl (fun a c => a * 10 + (c.toNat - 48)) 0

/-- Read a nonempty all-digit string as a number. -/
def readNatDigits (l : List Char) : Option Nat :=
  if l ≠ [] ∧ l.all Char.isDigit then some (digitsVal l) else none

/-- Gregorian leap year. -/
def isLeap (y : Nat) : Bool := (y % 4 = 0 && y % 100 ≠ 0) || y % 400 = 0

/-- Days in a month. -/
def daysInMonth (y m : Nat) : Nat :=
  if m = 2 then (if isLeap y then 29 else 28)
  else if m = 4 ∨ m = 6 ∨ m = 9 ∨ m = 11 then 30 else 31

/-- Calendar validity of a year/month/day triple. -/
def validYMD (y m d : Nat) : Bool :=
  1 ≤ m && m ≤ 12 && 1 ≤ d && d ≤ daysInMonth y m

/-- The date formats the model accepts: `MM/DD/YYYY` (pandas' month-first
default for slash dates) and ISO `YYYY-MM-DD`, both with four-digit years
and calendar-valid components. -/
def parseDateL (l : List Char) : Option (Nat × Nat × Nat) :=
  match splitOnCh '/' l [] with
  | [ms, ds, ys] =>
    match readNatDigits ms, readNatDigits ds, readNatDigits ys with
    | some m, some d, some y =>
        if ys.length = 4 ∧ validYMD y m d then some (y, m, d) else none
    | _, _, _ => none
  | _ =>
    match splitOnCh '-' l [] with
    | [ys, ms, ds] =>
      match readNatDigits ys, readNatDigits ms, readNatDigits ds with
      | some y, some m, some d =>
          if ys.length = 4 ∧ validYMD y m d then some (y, m, d) else none
      | _, _, _ => none
    | _ => none

/-- ASCII digit character. -/
def digitChar (n : Nat) : Char := Char.ofNat (48 + n % 10)

/-- `strftime` with the format of source line 93: `YYYY-MM-DD`. -/
def formatISO (y m d : Nat) : String :=
  ⟨[digitChar (y / 1000), digitChar (y / 100), digitChar (y / 10), digitChar y,
    '-', digitChar (m / 10), digitChar m, '-', digitChar (d / 10), digitChar d]⟩

/-- Outcome of `pd.to_datetime` on one cell: an exception (default
`errors~raise` mode), NaT for a null cell, or a timestamp rendered through
`.dt.strftime` as `YYYY-MM-DD`. -/
inductive DateParse where
  | raise : DateParse
  | nat_ : DateParse
  | ok : String → DateParse
deriving DecidableEq

/-- `pd.to_datetime` composed with `.dt.strftime` on one cell (source line
93): null gives NaT (later removed by `dropna`), parseable text gives the
ISO rendering, and unparseable text raises. -/
def pandasToDatetime : Cell → DateParse
  | Cell.null => DateParse.nat_
  | Cell.str s =>
    match parseDateL (stripL s.toList) with
    | some (y, m, d) => DateParse.ok (formatISO y m d)
    | none => DateParse.raise

/-- Drop every occurrence of a character (`str.replace(c, '')`). -/
def removeAll (c : Char) (l : List Char) : List Char := l.filter (fun x => x ≠ c)

/-- Replace every occurrence of a character (`str.replace(c, d)`). -/
def replaceAll (c d : Char) (l : List Char) : List Char :=
  l.map (fun x => if x = c then d else x)

/-- The amount scrubbing of source lines 100-105: remove `$` and `,`, turn
`(` into `-`, remove `)`, then strip whitespace. -/
def cleanAmountL (l : List Char) : List Char :=
  stripL (removeAll ')' (replaceAll '(' '-' (removeAll ',' (removeAll '$' l))))

/-- `str.strip` composed version on strings. -/
def cleanAmountStr (s : String) : String := ⟨cleanAmountL s.toList⟩

/-- Unsigned decimal literal: digits with at most one point and at least one
digit overall (`"12"`, `"12.5"`, `".5"`, `"5."`). -/
def parseUnsignedDec (cs : List Char) : Option ℚ :=
  match splitOnCh '.' cs [] with
  | [ip] =>
    if ip ≠ [] ∧ ip.all Char.isDigit then some (mkRat (digitsVal ip) 1) else none
  | [ip, fp] =>
    if (ip ≠ [] ∨ fp ≠ []) ∧ ip.all Char.isDigit ∧ fp.all Char.isDigit then
      some (mkRat (digitsVal ip * 10 ^ fp.length + digitsVal fp) (10 ^ fp.length))
    else none
  | _ => none

/-- `pd.to_numeric(s, errors~coerce)` on one scrubbed cell: an optionally
signed decimal literal, or NaN (`none`) for anything else. -/
def pd_to_numeric (s : String) : Option ℚ :=
  match s.toList with
  | '-' :: rest => (parseUnsignedDec rest).map Rat.neg
  | '+' :: rest => parseUnsignedDec rest
  | cs => parseUnsignedDec cs

/-- `abs` as the source's `.abs()` applies it. -/
def absQ (q : ℚ) : ℚ := if q.num < 0 then Rat.neg q else q

/-- Source line 107 for one cell: scrub, coerce to a number, absolute
value; `none` is pandas NaN, later removed by `dropna`. -/
def normalizeAmount (s : String) : Option ℚ :=
  (pd_to_numeric (cleanAmountStr s)).map absQ

/-- One validated output record (the four columns selected at source line
121). -/
structure Record where
  date : String
  description : String
  amount : ℚ
  category : String
deriving DecidableEq

/-- The result of `clean_transaction_data`: `(clean_df, None)` on success,
`(None, message)` when the catch-all handler of lines 123-124 fires. -/
inductive IngestResult where
  | ok : List Record → IngestResult
  | error : String → IngestResult
deriving DecidableEq

/-- Did the call succeed? -/
def IngestResult.isSuccess : IngestResult → Bool
  | IngestResult.ok _ => true
  | IngestResult.error _ => false

/-- The per-row category function of source lines 110-113: a falsy (empty)
or absent column name falls back to the sentinel; otherwise the stringified,
stripped cell value is used. -/
def categoryOf (tbl : Table) (ccol : Option String) : Row → String :=
  match ccol with
  | none => fun _ => "Uncategorized"
  | some c =>
    if c ≠ "" ∧ c ∈ tbl.header then fun r => stripStr (stringifyCell (cellOf r c))
    else fun _ => "Uncategorized"

/-- The whole per-row computation and the row filters of source lines
93-118, for one row, once the batch-level checks have passed: a `none`
result is a row silently excluded by `dropna(['date','amount'])`,
`amount > 0` or `description != ''`. -/
def rowClean (dcol scol acol : String) (catf : Row → String) (r : Row) : Option Record :=
  match pandasToDatetime (cellOf r dcol) with
  | DateParse.raise => none
  | DateParse.nat_ => none
  | DateParse.ok iso =>
    match normalizeAmount (stringifyCell (cellOf r acol)) with
    | none => none
    | some a =>
      if 0 < a ∧ clean_description (stringifyCell (cellOf r scol)) ≠ "" then
        some ⟨iso, clean_description (stringifyCell (cellOf r scol)), a, catf r⟩
      else none

/-- `clean_transaction_data` (source lines 88-124).  The `try` block raises
— and the handler returns a batch error — when a mapped date, description
or amount column is missing (`KeyError` from the `df[...]` accesses, in
source order) or when `pd.to_datetime` meets a non-null unparseable date
cell; the category column is guarded by an explicit membership test and
never raises.  Otherwise the surviving rows are returned in order. -/
def clean_transaction_data (tbl : Table) (dcol scol acol : String)
    (ccol : Option String) : IngestResult :=
  if dcol ∈ tbl.header then
    if ∃ r ∈ tbl.rows, pandasToDatetime (cellOf r dcol) = DateParse.raise then
      IngestResult.error "Error processing data: unparseable date"
    else
      if scol ∈ tbl.header then
        if acol ∈ tbl.header then
          IngestResult.ok
            (tbl.rows.filterMap (rowClean dcol scol acol (categoryOf tbl ccol)))
        else IngestResult.error "Error processing data: missing amount column"
      else IngestResult.error "Error processing data: missing description column"
  else IngestResult.error "Error processing data: missing date column"

/-! ## Helper lemmas -/

theorem isSome_false_none {α : Type} {o : Option α} (h : o.isSome = false) : o = none := by
  cases o with
  | none => rfl
  | some a => simp [Option.isSome] at h

theorem sub_pat_id (pat t : List Char) (h : matchCI pat t = none) : sub_pat pat t = t := by
  unfold sub_pat
  rw [h]

/-- When no listed pattern matches at the start, the whole pattern loop is
the identity. -/
theorem applyPats_id (t : List Char) (h : startsWithAny t = false) : applyPats t = t := by
  simp only [startsWithAny, patList, List.any_cons, List.any_nil, Bool.or_eq_false_iff] at h
  obtain ⟨h1, h2, h3, h4, h5, h6, h7, -⟩ := h
  simp only [applyPats, patList, List.foldl_cons, List.foldl_nil]
  rw [sub_pat_id _ _ (isSome_false_none h1), sub_pat_id _ _ (isSome_false_none h2),
    sub_pat_id _ _ (isSome_false_none h3), sub_pat_id _ _ (isSome_false_none h4),
    sub_pat_id _ _ (isSome_false_none h5), sub_pat_id _ _ (isSome_false_none h6),
    sub_pat_id _ _ (isSome_false_none h7)]

theorem matchCI_suffix : ∀ (pat t rest : List Char), matchCI pat t = some rest → rest.IsSuffix t
  | [], t, rest, h => by
    simp only [matchCI, Option.some.injEq] at h
    exact h ▸ List.suffix_refl t
  | p :: ps, [], rest, h => by simp [matchCI] at h
  | p :: ps, c :: cs, rest, h => by
    simp only [matchCI] at h
    by_cases hc : p.toLower = c.toLower
    · rw [if_pos hc] at h
      exact (matchCI_suffix ps cs rest h).trans (List.suffix_cons c cs)
    · rw [if_neg hc] at h
      exact absurd h (by simp)

theorem dropWhile_suffix_self (p : Char → Bool) : ∀ l : List Char, (l.dropWhile p).IsSuffix l
  | [] => List.suffix_refl []
  | c :: cs => by
    rw [List.dropWhile_cons]
    by_cases hc : p c = true
    · rw [if_pos hc]
      exact (dropWhile_suffix_self p cs).trans (List.suffix_cons c cs)
    · rw [if_neg hc]

theorem sub_pat_suffix (pat t : List Char) : (sub_pat pat t).IsSuffix t := by
  unfold sub_pat
  cases hm : matchCI pat t with
  | none => exact List.suffix_refl t
  | some rest => exact (dropWhile_suffix_self isSpace rest).trans (matchCI_suffix pat t rest hm)

theorem foldl_sub_pat_suffix : ∀ (pats : List (List Char)) (t : List Char),
    (pats.foldl (fun acc pat => sub_pat pat acc) t).IsSuffix t
  | [], t => List.suffix_refl t
  | pat :: pats, t => by
    rw [List.foldl_cons]
    exact (foldl_sub_pat_suffix pats (sub_pat pat t)).trans (sub_pat_suffix pat t)

/-- The pattern loop only ever removes an initial segment of its input. -/
theorem applyPats_suffix (t : List Char) : (applyPats t).IsSuffix t :=
  foldl_sub_pat_suffix patList t

/-- A word produced by the whitespace splitter: nonempty and free of
whitespace. -/
def goodWord (w : List Char) : Prop := w ≠ [] ∧ ∀ c ∈ w, isSpace c = false

theorem flushAcc_mem {acc : List Char} {rest : List (List Char)} {w : List Char}
    (h : w ∈ flushAcc acc rest) : (acc ≠ [] ∧ w = acc.reverse) ∨ w ∈ rest := by
  cases acc with
  | nil => exact Or.inr h
  | cons a as =>
    rcases List.mem_cons.mp h with h' | h'
    · exact Or.inl ⟨by simp, h'⟩
    · exact Or.inr h'

theorem wordsAux_good : ∀ (cs acc : List Char), (∀ c ∈ acc, isSpace c = false) →
    ∀ w ∈ wordsAux cs acc, goodWord w
  | [], acc, hacc, w, hw => by
    unfold wordsAux at hw
    rcases flushAcc_mem hw with ⟨hne, rfl⟩ | h'
    · exact ⟨by simpa using hne, fun c hc => hacc c (List.mem_reverse.mp hc)⟩
    · exact absurd h' (List.not_mem_nil w)
  | c :: cs, acc, hacc, w, hw => by
    unfold wordsAux at hw
    by_cases hc : isSpace c = true
    · rw [if_pos hc] at hw
      rcases flushAcc_mem hw with ⟨hne, rfl⟩ | h'
      · exact ⟨by simpa using hne, fun d hd => hacc d (List.mem_reverse.mp hd)⟩
      · exact wordsAux_good cs [] (by simp) w h'
    · rw [if_neg hc] at hw
      refine wordsAux_good cs (c :: acc) ?_ w hw
      intro d hd
      rcases List.mem_cons.mp hd with rfl | hd'
      · exact Bool.not_eq_true _ ▸ (by simpa using hc)
      · exact hacc d hd'

theorem words_good (cs : List Char) : ∀ w ∈ words cs, goodWord w :=
  wordsAux_good cs [] (by simp)

theorem wordsAux_append : ∀ (w rest acc : List Char), (∀ c ∈ w, isSpace c = false) →
    wordsAux (w ++ rest) acc = wordsAux rest (w.reverse ++ acc)
  | [], rest, acc, _ => by simp
  | c :: w, rest, acc, h => by
    have hc : isSpace c = false := h c (List.mem_cons_self c w)
    have h2 : wordsAux ((c :: w) ++ rest) acc = wordsAux (w ++ rest) (c :: acc) := by
      show (if isSpace c = true then flushAcc acc (wordsAux (w ++ rest) [])
        else wordsAux (w ++ rest) (c :: acc)) = wordsAux (w ++ rest) (c :: acc)
      rw [hc, if_neg Bool.false_ne_true]
    rw [h2, wordsAux_append w rest (c :: acc) (fun d hd => h d (List.mem_cons_of_mem c hd))]
    simp

theorem joinSp_ne_nil {w : List Char} (ws : List (List Char)) (hw : w ≠ []) :
    joinSp (w :: ws) ≠ [] := by
  cases ws with
  | nil => simpa [joinSp] using hw
  | cons v ws => simp [joinSp, hw]

/-- Splitting a join of good words recovers exactly the words. -/
theorem words_joinSp : ∀ ws : List (List Char), (∀ w ∈ ws, goodWord w) →
    words (joinSp ws) = ws
  | [], _ => by simp [words, joinSp, wordsAux, flushAcc]
  | [w], h => by
    obtain ⟨hne, hsp⟩ := h w (List.mem_cons_self w [])
    show words (joinSp [w]) = [w]
    rw [show joinSp [w] = w from rfl]
    unfold words
    rw [show w = w ++ ([] : List Char) by simp, wordsAux_append w [] [] hsp]
    unfold wordsAux
    cases hrev : w.reverse with
    | nil => exact absurd (by simpa using hrev) hne
    | cons a as =>
      simp only [flushAcc, hrev]
      rw [← List.reverse_reverse w, hrev, List.reverse_cons]
      simp
  | w :: v :: ws, h => by
    obtain ⟨hne, hsp⟩ := h w (List.mem_cons_self w (v :: ws))
    have hrest : ∀ u ∈ v :: ws, goodWord u := fun u hu => h u (List.mem_cons_of_mem w hu)
    show words (joinSp (w :: v :: ws)) = w :: v :: ws
    rw [show joinSp (w :: v :: ws) = w ++ ' ' :: joinSp (v :: ws) from rfl]
    unfold words
    rw [wordsAux_append w (' ' :: joinSp (v :: ws)) [] hsp]
    unfold wordsAux
    rw [if_pos (by simp [isSpace])]
    have htail := words_joinSp (v :: ws) hrest
    unfold words at htail
    rw [htail]
    cases hrev : w.reverse with
    | nil => exact absurd (by simpa using hrev) hne
    | cons a as =>
      simp only [flushAcc, hrev]
      rw [← List.reverse_reverse w, hrev, List.reverse_cons]
      simp

theorem dropWhile_head_false {p : Char → Bool} {l : List Char}
    (h : ∀ c, l.head? = some c → p c = false) : l.dropWhile p = l := by
  cases l with
  | nil => rfl
  | cons c cs => simp [List.dropWhile_cons, h c rfl]

theorem joinSp_head_good (ws : List (List Char)) (hws : ∀ w ∈ ws, goodWord w) :
    ∀ c, (joinSp ws).head? = some c → isSpace c = false := by
  intro c hc
  cases ws with
  | nil => simp [joinSp] at hc
  | cons w ws' =>
    obtain ⟨hne, hsp⟩ := hws w (List.mem_cons_self w ws')
    cases hw : w with
    | nil => exact absurd hw hne
    | cons a as =>
      subst hw
      have hhd : (joinSp ((a :: as) :: ws')).head? = some a := by
        cases ws' with
        | nil => rfl
        | cons v ws'' => rfl
      rw [hhd, Option.some.injEq] at hc
      exact hc ▸ hsp a (List.mem_cons_self a as)

theorem joinSp_rev_head_good : ∀ ws : List (List Char), (∀ w ∈ ws, goodWord w) →
    ∀ c, (joinSp ws).reverse.head? = some c → isSpace c = false
  | [], _, c, hc => by simp [joinSp] at hc
  | [w], h, c, hc => by
    obtain ⟨hne, hsp⟩ := h w (List.mem_cons_self w [])
    rw [show joinSp [w] = w from rfl] at hc
    have : c ∈ w.reverse := by
      cases hrev : w.reverse with
      | nil => rw [hrev] at hc; simp at hc
      | cons a as =>
        rw [hrev] at hc
        simp only [List.head?_cons, Option.some.injEq] at hc
        exact hc ▸ List.mem_cons_self a as
    exact hsp c (List.mem_reverse.mp this)
  | w :: v :: ws, h, c, hc => by
    have hrest : ∀ u ∈ v :: ws, goodWord u := fun u hu => h u (List.mem_cons_of_mem w hu)
    have hvne : v ≠ [] := (hrest v (List.mem_cons_self v ws)).1
    rw [show joinSp (w :: v :: ws) = w ++ ' ' :: joinSp (v :: ws) from rfl,
      List.reverse_append, List.reverse_cons] at hc
    have hjne : (joinSp (v :: ws)).reverse ≠ [] := by
      simpa using joinSp_ne_nil ws hvne
    cases hrev : (joinSp (v :: ws)).reverse with
    | nil => exact absurd hrev hjne
    | cons d ds =>
      rw [hrev] at hc
      simp only [List.cons_append, List.head?_cons, Option.some.injEq] at hc
      refine hc ▸ joinSp_rev_head_good (v :: ws) hrest d ?_
      rw [hrev]
      rfl

/-- A join of good words is already stripped. -/
theorem stripL_joinSp (ws : List (List Char)) (hws : ∀ w ∈ ws, goodWord w) :
    stripL (joinSp ws) = joinSp ws := by
  unfold stripL
  rw [dropWhile_head_false (joinSp_head_good ws hws),
    dropWhile_head_false (joinSp_rev_head_good ws hws), List.reverse_reverse]

/-- The shape of every `clean_description` result on nonempty input. -/
theorem cleanDescL_eq_joinSp (cs : List Char) (h : cs ≠ []) :
    cleanDescL cs = joinSp (words (applyPats (stripL cs))) := by
  unfold cleanDescL
  rw [if_neg h]

/-- Core idempotence analysis: re-cleaning a cleaned text is the identity as
long as the cleaned text does not itself start with a listed pattern. -/
theorem cleanDescL_idem (cs : List Char) (h : startsWithAny (cleanDescL cs) = false) :
    cleanDescL (cleanDescL cs) = cleanDescL cs := by
  by_cases hcs : cs = []
  · subst hcs
    rfl
  · rw [cleanDescL_eq_joinSp cs hcs] at h ⊢
    set ws := words (applyPats (stripL cs)) with hws
    have hgood : ∀ w ∈ ws, goodWord w := words_good _
    by_cases hnil : joinSp ws = []
    · rw [hnil]
      rfl
    · rw [cleanDescL_eq_joinSp _ hnil, stripL_joinSp ws hgood, applyPats_id _ h,
        words_joinSp ws hgood]

/-! ## Pipeline helper lemmas -/

/-- Inversion: a successful call returns exactly the per-row filtered map of
the rows. -/
theorem clean_transaction_data_ok (tbl : Table) (dcol scol acol : String)
    (ccol : Option String) (out : List Record)
    (h : clean_transaction_data tbl dcol scol acol ccol = IngestResult.ok out) :
    out = tbl.rows.filterMap (rowClean dcol scol acol (categoryOf tbl ccol)) := by
  unfold clean_transaction_data at h
  by_cases h1 : dcol ∈ tbl.header
  · rw [if_pos h1] at h
    by_cases h2 : ∃ r ∈ tbl.rows, pandasToDatetime (cellOf r dcol) = DateParse.raise
    · rw [if_pos h2] at h
      exact absurd h (by simp)
    · rw [if_neg h2] at h
      by_cases h3 : scol ∈ tbl.header
      · rw [if_pos h3] at h
        by_cases h4 : acol ∈ tbl.header
        · rw [if_pos h4] at h
          injection h with h
          exact h.symm
        · rw [if_neg h4] at h
          exact absurd h (by simp)
      · rw [if_neg h3] at h
        exact absurd h (by simp)
  · rw [if_neg h1] at h
    exact absurd h (by simp)

/-- A missing date, description or amount column makes the call fail. -/
theorem error_of_missing_column (tbl : Table) (dcol scol acol : String)
    (ccol : Option String)
    (h : dcol ∉ tbl.header ∨ scol ∉ tbl.header ∨ acol ∉ tbl.header) :
    (clean_transaction_data tbl dcol scol acol ccol).isSuccess = false := by
  unfold clean_transaction_data
  by_cases h1 : dcol ∈ tbl.header
  · rw [if_pos h1]
    by_cases h2 : ∃ r ∈ tbl.rows, pandasToDatetime (cellOf r dcol) = DateParse.raise
    · rw [if_pos h2]
      rfl
    · rw [if_neg h2]
      by_cases h3 : scol ∈ tbl.header
      · rw [if_pos h3]
        have h4 : acol ∉ tbl.header := by
          rcases h with h | h | h
          · exact absurd h1 h
          · exact absurd h3 h
          · exact h
        rw [if_neg h4]
        rfl
      · rw [if_neg h3]
        rfl
  · rw [if_neg h1]
    rfl

/-- A row whose date cell raises makes the call fail. -/
theorem error_of_raising_date (tbl : Table) (dcol scol acol : String)
    (ccol : Option String) (r : Row) (hd : dcol ∈ tbl.header) (hr : r ∈ tbl.rows)
    (hraise : pandasToDatetime (cellOf r dcol) = DateParse.raise) :
    (clean_transaction_data tbl dcol scol acol ccol).isSuccess = false := by
  unfold clean_transaction_data
  rw [if_pos hd, if_pos ⟨r, hr, hraise⟩]
  rfl

/-- The category stored in a surviving record is the per-row category
function's value. -/
theorem rowClean_category (dcol scol acol : String) (catf : Row → String) (r : Row)
    (rec : Record) (h : rowClean dcol scol acol catf r = some rec) :
    rec.category = catf r := by
  unfold rowClean at h
  cases hd : pandasToDatetime (cellOf r dcol) with
  | raise =>
    rw [hd] at h
    exact absurd h (by simp)
  | nat_ =>
    rw [hd] at h
    exact absurd h (by simp)
  | ok iso =>
    rw [hd] at h
    cases ha : normalizeAmount (stringifyCell (cellOf r acol)) with
    | none =>
      rw [ha] at h
      exact absurd h (by simp)
    | some a =>
      rw [ha] at h
      dsimp only at h
      by_cases hcond : 0 < a ∧ clean_description (stringifyCell (cellOf r scol)) ≠ ""
      · rw [if_pos hcond] at h
        injection h with h
        rw [← h]
      · rw [if_neg hcond] at h
        exact absurd h (by simp)

/-- A null date cell is a per-row soft rejection. -/
theorem rowClean_null_date (dcol scol acol : String) (catf : Row → String) (r : Row)
    (h : cellOf r dcol = Cell.null) : rowClean dcol scol acol catf r = none := by
  unfold rowClean
  rw [h]
  rfl

/-- A row whose amount fails to coerce, or whose absolutized amount is not
strictly positive, is excluded. -/
theorem rowClean_bad_amount (dcol scol acol : String) (catf : Row → String) (r : Row)
    (h : ∀ q, normalizeAmount (stringifyCell (cellOf r acol)) = some q → q ≤ 0) :
    rowClean dcol scol acol catf r = none := by
  unfold rowClean
  cases hd : pandasToDatetime (cellOf r dcol) with
  | raise => rfl
  | nat_ => rfl
  | ok iso =>
    cases ha : normalizeAmount (stringifyCell (cellOf r acol)) with
    | none => rfl
    | some a =>
      have hneg : ¬ (0 < a ∧ clean_description (stringifyCell (cellOf r scol)) ≠ "") := by
        intro hcon
        exact absurd hcon.1 (not_lt.mpr (h a ha))
      dsimp only
      rw [if_neg hneg]

/-- A row whose cleaned description is empty is excluded. -/
theorem rowClean_empty_desc (dcol scol acol : String) (catf : Row → String) (r : Row)
    (h : clean_description (stringifyCell (cellOf r scol)) = "") :
    rowClean dcol scol acol catf r = none := by
  unfold rowClean
  cases hd : pandasToDatetime (cellOf r dcol) with
  | raise => rfl
  | nat_ => rfl
  | ok iso =>
    cases ha : normalizeAmount (stringifyCell (cellOf r acol)) with
    | none => rfl
    | some a =>
      have hneg : ¬ (0 < a ∧ clean_description (stringifyCell (cellOf r scol)) ≠ "") := by
        intro hcon
        exact hcon.2 h
      dsimp only
      rw [if_neg hneg]

/-- Every output of `filterMap` comes from a strictly increasing list of
source indices, in order. -/
theorem filterMap_indices {α β : Type} (f : α → Option β) (l : List α) :
    ∃ idx : List Nat, List.Pairwise (fun a b => a < b) idx ∧
      idx.map (fun i => (l.get? i).bind f) = (l.filterMap f).map some := by
  induction l with
  | nil => exact ⟨[], by simp, by simp⟩
  | cons a l ih =>
    obtain ⟨idx, hpw, hmap⟩ := ih
    cases hfa : f a with
    | none =>
      refine ⟨idx.map Nat.succ, ?_, ?_⟩
      · rw [List.pairwise_map]
        exact hpw.imp (fun hlt => Nat.succ_lt_succ hlt)
      · rw [List.map_map, List.filterMap_cons, hfa]
        rw [← hmap]
        apply List.map_congr_left
        intro i _
        simp [List.get?_cons_succ, Function.comp]
    | some b =>
      refine ⟨0 :: idx.map Nat.succ, ?_, ?_⟩
      · constructor
        · intro x hx
          rw [List.mem_map] at hx
          obtain ⟨y, -, rfl⟩ := hx
          exact Nat.succ_pos y
        · rw [List.pairwise_map]
          exact hpw.imp (fun hlt => Nat.succ_lt_succ hlt)
      · rw [List.map_cons, List.map_map, List.filterMap_cons, hfa, List.map_cons]
        rw [← hmap]
        have hhead : ((a :: l).get? 0).bind f = some b := by simp [hfa]
        rw [hhead]
        apply congrArg (List.cons (some b))
        apply List.map_congr_left
        intro i _
        simp [Function.comp]

theorem length_filterMap_le' {α β : Type} (f : α → Option β) (l : List α) :
    (l.filterMap f).length ≤ l.length := by
  induction l with
  | nil => simp
  | cons a l ih =>
    rw [List.filterMap_cons]
    cases f a with
    | none => exact Nat.le_succ_of_le ih
    | some b => simpa using ih

/-! ## Claims -/

/-- Table for C1: the second row's date cell holds unparseable text. -/
def tblC1 : Table :=
  ⟨["date", "desc", "amt"],
   [[("date", Cell.str "01/15/2024"), ("desc", Cell.str "GOOD ROW"), ("amt", Cell.str "5")],
    [("date", Cell.str "bad-date"), ("desc", Cell.str "X"), ("amt", Cell.str "5")]]⟩

/-- Claim C1 is false on the code: with one unparseable date cell the whole
call fails (the `pd.to_datetime` exception reaches the catch-all handler,
source lines 93 and 123-124) instead of succeeding with that row dropped. -/
theorem claim1_counterexample :
    (clean_transaction_data tblC1 "date" "desc" "amt" none).isSuccess = false := by
  decide

/-- Claim C1 amended: a non-null date cell that fails to parse makes the
whole call fail with a batch-level error; only a null date cell is a
per-row soft rejection. -/
theorem claim1_amended (tbl : Table) (dcol scol acol : String) (ccol : Option String)
    (r r2 : Row) (hd : dcol ∈ tbl.header) (hr : r ∈ tbl.rows)
    (hraise : pandasToDatetime (cellOf r dcol) = DateParse.raise)
    (hnull : cellOf r2 dcol = Cell.null) :
    (clean_transaction_data tbl dcol scol acol ccol).isSuccess = false ∧
    rowClean dcol scol acol (categoryOf tbl ccol) r2 = none :=
  ⟨error_of_raising_date tbl dcol scol acol ccol r hd hr hraise,
   rowClean_null_date dcol scol acol (categoryOf tbl ccol) r2 hnull⟩

/-- Amended C1, instantiated. -/
theorem claim1_amended_witness :
    (clean_transaction_data tblC1 "date" "desc" "amt" none).isSuccess = false ∧
    rowClean "date" "desc" "amt" (categoryOf tblC1 none) [("desc", Cell.str "X")] = none :=
  claim1_amended tblC1 "date" "desc" "amt" none
    [("date", Cell.str "bad-date"), ("desc", Cell.str "X"), ("amt", Cell.str "5")]
    [("desc", Cell.str "X")] (by decide) (by decide) (by decide) (by decide)

/-- Claim C2 is false: the normalizer is not idempotent — removing the POS
pattern can expose another occurrence that only the next call removes. -/
theorem claim2_counterexample :
    clean_description "POS POS X" = "POS X" ∧
    clean_description (clean_description "POS POS X") = "X" ∧
    clean_description (clean_description "POS POS X") ≠ clean_description "POS POS X" := by
  decide

/-- Claim C2 amended: `clean_description` is idempotent on every string
whose once-cleaned result does not itself begin (case-insensitively) with
one of the listed patterns. -/
theorem claim2_amended (s : String)
    (h : startsWithAnyStr (clean_description s) = false) :
    clean_description (clean_description s) = clean_description s :=
  congrArg String.mk (cleanDescL_idem s.toList h)

/-- Amended C2, instantiated. -/
theorem claim2_amended_witness :
    startsWithAnyStr (clean_description "  SQ *   Coffee  Shop ") = false ∧
    clean_description (clean_description "  SQ *   Coffee  Shop ") =
      clean_description "  SQ *   Coffee  Shop " :=
  ⟨by decide, claim2_amended "  SQ *   Coffee  Shop " (by decide)⟩

/-- Claim C3 is false: one call can strip two listed patterns — after TST*
is removed the text starts with SQ *, which a later iteration of the same
loop also removes, leaving COFFEE instead of the claimed SQ *COFFEE. -/
theorem claim3_counterexample :
    clean_description "TST*SQ *COFFEE" = "COFFEE" ∧
    clean_description "TST*SQ *COFFEE" ≠ "SQ *COFFEE" := by
  decide

/-- Claim C3 amended: the loop tries each pattern once, in list order, so a
single call can remove several listed prefixes when one removal exposes a
later-listed pattern; an exposed earlier-listed pattern is not retried; and
the loop only ever removes an initial segment of the trimmed text. -/
theorem claim3_amended :
    (∀ t : List Char, (applyPats t).IsSuffix t) ∧
    clean_description "TST*SQ *COFFEE" = "COFFEE" ∧
    clean_description "SQ *TST*COFFEE" = "TST*COFFEE" :=
  ⟨applyPats_suffix, by decide, by decide⟩

/-- Table for C4: the description cleans to the empty string. -/
def tblC4 : Table :=
  ⟨["date", "desc", "amt"],
   [[("date", Cell.str "01/15/2024"), ("desc", Cell.str "POS"), ("amt", Cell.str "5")]]⟩

/-- Claim C4 is false: the raw description "POS" is non-empty but cleans to
the empty string, and the pipeline drops the row instead of retaining the
original text (source line 118 filters on the cleaned column only; the
`raw_description` column is never used as a fallback). -/
theorem claim4_counterexample :
    clean_description "POS" = "" ∧ "POS" ≠ "" ∧
    clean_transaction_data tblC4 "date" "desc" "amt" none = IngestResult.ok [] := by
  decide

/-- Claim C4 amended: a row whose cleaned description is empty is excluded
no matter what its raw description was; the bulk pipeline never falls back
to the original text. -/
theorem claim4_amended (dcol scol acol : String) (catf : Row → String) (r : Row)
    (h : clean_description (stringifyCell (cellOf r scol)) = "") :
    rowClean dcol scol acol catf r = none :=
  rowClean_empty_desc dcol scol acol catf r h

/-- Amended C4, instantiated. -/
theorem claim4_amended_witness :
    rowClean "date" "desc" "amt" (categoryOf tblC4 none)
      [("date", Cell.str "01/15/2024"), ("desc", Cell.str "POS"), ("amt", Cell.str "5")] =
      none :=
  claim4_amended "date" "desc" "amt" (categoryOf tblC4 none)
    [("date", Cell.str "01/15/2024"), ("desc", Cell.str "POS"), ("amt", Cell.str "5")]
    (by decide)

/-- Table for C5: a well-formed single-row table. -/
def tblC5 : Table :=
  ⟨["date", "desc", "amt"],
   [[("date", Cell.str "01/15/2024"), ("desc", Cell.str "X"), ("amt", Cell.str "5")]]⟩

/-- Claim C5 is false for the category field: mapping a category column
name that does not exist in the header does not fail the call — the
membership guard of source line 110 silently falls back to the sentinel and
the call succeeds with records. -/
theorem claim5_counterexample :
    clean_transaction_data tblC5 "date" "desc" "amt" (some "zzz") =
      IngestResult.ok [⟨"2024-01-15", "X", 5, "Uncategorized"⟩] := by
  decide

/-- Claim C5 amended: a missing date, description or amount column fails
the whole call with zero records; a missing category column never does —
for every table, failing or successful, the call with the bad category
column returns exactly what the call with no category column returns, so it
succeeds with sentinel-categorized records whenever the no-category call
does. -/
theorem claim5_amended (tbl : Table) (dcol scol acol : String) (ccol : Option String)
    (c : String) (hc : c ∉ tbl.header) :
    ((dcol ∉ tbl.header ∨ scol ∉ tbl.header ∨ acol ∉ tbl.header) →
      (clean_transaction_data tbl dcol scol acol ccol).isSuccess = false) ∧
    clean_transaction_data tbl dcol scol acol (some c) =
      clean_transaction_data tbl dcol scol acol none := by
  constructor
  · intro h
    exact error_of_missing_column tbl dcol scol acol ccol h
  · have hcat : categoryOf tbl (some c) = categoryOf tbl none := by
      show (if c ≠ "" ∧ c ∈ tbl.header then fun r => stripStr (stringifyCell (cellOf r c))
        else fun _ => "Uncategorized") = fun _ => "Uncategorized"
      rw [if_neg (fun hand => hc hand.2)]
    unfold clean_transaction_data
    rw [hcat]

/-- Amended C5, instantiated on a table where every required column is
present: the call with the nonexistent category column equals the call with
no category column, and both succeed (with one sentinel-categorized
record, by `claim5_counterexample`). -/
theorem claim5_amended_witness :
    clean_transaction_data tblC5 "date" "desc" "amt" (some "zzz") =
      clean_transaction_data tblC5 "date" "desc" "amt" none ∧
    (clean_transaction_data tblC5 "date" "desc" "amt" none).isSuccess = true :=
  ⟨(claim5_amended tblC5 "date" "desc" "amt" none "zzz" (by decide)).2, by decide⟩

/-- Table refuting C6: every amount cell is the claim's own example text
abc, yet the second row's date cell is unparseable text. -/
def tblC6x : Table :=
  ⟨["date", "desc", "amt"],
   [[("date", Cell.str "01/15/2024"), ("desc", Cell.str "A"), ("amt", Cell.str "abc")],
    [("date", Cell.str "bad-date"), ("desc", Cell.str "B"), ("amt", Cell.str "abc")]]⟩

/-- Claim C6 is false as stated: a table in which every amount cell is the
non-numeric text abc — the claim's own example of all rows being rejected —
still makes the call fail at batch level when any date cell is non-null
unparseable text, because `pd.to_datetime` raises before the row filters
ever run. -/
theorem claim6_counterexample :
    (∀ r ∈ tblC6x.rows, cellOf r "amt" = Cell.str "abc") ∧
    (clean_transaction_data tblC6x "date" "desc" "amt" none).isSuccess = false := by
  decide

/-- Claim C6 amended: provided the three required columns are mapped and no
non-null date cell is unparseable, a table whose every row is individually
rejected by the row-level checks — null date, failed or non-positive
amount coercion, or empty cleaned description — yields a success result
with zero records; row rejections never escalate to a batch failure. -/
theorem claim6_ok (tbl : Table) (dcol scol acol : String) (ccol : Option String)
    (hd : dcol ∈ tbl.header) (hs : scol ∈ tbl.header) (ha : acol ∈ tbl.header)
    (hdate : ∀ r ∈ tbl.rows, pandasToDatetime (cellOf r dcol) ≠ DateParse.raise)
    (hrej : ∀ r ∈ tbl.rows,
      cellOf r dcol = Cell.null ∨
      (∀ q, normalizeAmount (stringifyCell (cellOf r acol)) = some q → q ≤ 0) ∨
      clean_description (stringifyCell (cellOf r scol)) = "") :
    clean_transaction_data tbl dcol scol acol ccol = IngestResult.ok [] := by
  have hnoraise : ¬ ∃ r ∈ tbl.rows, pandasToDatetime (cellOf r dcol) = DateParse.raise := by
    intro hex
    obtain ⟨r, hr, hraise⟩ := hex
    exact hdate r hr hraise
  unfold clean_transaction_data
  rw [if_pos hd, if_neg hnoraise, if_pos hs, if_pos ha]
  congr 1
  rw [List.filterMap_eq_nil_iff]
  intro r hr
  rcases hrej r hr with h | h | h
  · exact rowClean_null_date dcol scol acol (categoryOf tbl ccol) r h
  · exact rowClean_bad_amount dcol scol acol (categoryOf tbl ccol) r h
  · exact rowClean_empty_desc dcol scol acol (categoryOf tbl ccol) r h

/-- Table for the C6 witness: rows rejected for all three soft reasons —
an abc amount, a null date, and a description that cleans to empty. -/
def tblC6 : Table :=
  ⟨["date", "desc", "amt"],
   [[("date", Cell.str "01/15/2024"), ("desc", Cell.str "A"), ("amt", Cell.str "abc")],
    [("date", Cell.null), ("desc", Cell.str "B"), ("amt", Cell.str "7")],
    [("date", Cell.str "01/16/2024"), ("desc", Cell.str "POS"), ("amt", Cell.str "7")]]⟩

/-- Amended C6, instantiated. -/
theorem claim6_witness :
    clean_transaction_data tblC6 "date" "desc" "amt" none = IngestResult.ok [] :=
  claim6_ok tblC6 "date" "desc" "amt" none (by decide) (by decide) (by decide)
    (by decide)
    (by
      intro r hr
      rcases List.mem_cons.mp hr with rfl | hr2
      · refine Or.inr (Or.inl ?_)
        intro q hq
        rw [show normalizeAmount (stringifyCell (cellOf
            [("date", Cell.str "01/15/2024"), ("desc", Cell.str "A"),
             ("amt", Cell.str "abc")] "amt")) = none from by decide] at hq
        exact Option.noConfusion hq
      rcases List.mem_cons.mp hr2 with rfl | hr3
      · exact Or.inl (by decide)
      rcases List.mem_cons.mp hr3 with rfl | hr4
      · exact Or.inr (Or.inr (by decide))
      · exact absurd hr4 (List.not_mem_nil r))

/-- Claim C7: the amount normalization examples hold, and a row whose
amount fails to coerce — or coerces to a non-positive absolutized value —
produces no output record. -/
theorem claim7_ok :
    normalizeAmount "$1,234.56" = some (mkRat 123456 100) ∧
    normalizeAmount "(45.00)" = some 45 ∧
    normalizeAmount "12.5 " = some (mkRat 25 2) ∧
    ∀ (dcol scol acol : String) (catf : Row → String) (r : Row),
      (∀ q, normalizeAmount (stringifyCell (cellOf r acol)) = some q → q ≤ 0) →
      rowClean dcol scol acol catf r = none :=
  ⟨by decide, by decide, by decide,
   fun dcol scol acol catf r h => rowClean_bad_amount dcol scol acol catf r h⟩

/-- C7, instantiated on a row whose amount cell is the text abc. -/
theorem claim7_witness :
    rowClean "date" "desc" "amt" (fun _ => "Uncategorized")
      [("date", Cell.str "01/15/2024"), ("desc", Cell.str "X"), ("amt", Cell.str "abc")] =
      none := by
  apply claim7_ok.2.2.2
  intro q hq
  rw [show normalizeAmount (stringifyCell (cellOf
      [("date", Cell.str "01/15/2024"), ("desc", Cell.str "X"), ("amt", Cell.str "abc")]
      "amt")) = none from by decide] at hq
  exact absurd hq (by simp)

/-- Claim C8: a successful call returns at most as many records as input
rows, and the surviving records are produced, in order, by a strictly
increasing list of source row indices. -/
theorem claim8_ok (tbl : Table) (dcol scol acol : String) (ccol : Option String)
    (out : List Record)
    (h : clean_transaction_data tbl dcol scol acol ccol = IngestResult.ok out) :
    out.length ≤ tbl.rows.length ∧
    ∃ idx : List Nat, List.Pairwise (fun i j => i < j) idx ∧
      idx.map (fun i =>
          (tbl.rows.get? i).bind (rowClean dcol scol acol (categoryOf tbl ccol))) =
        out.map some := by
  have hout := clean_transaction_data_ok tbl dcol scol acol ccol out h
  subst hout
  exact ⟨length_filterMap_le' _ _, filterMap_indices _ _⟩

/-- Table for the C8 witness: the first row is rejected, the second kept. -/
def tblC8 : Table :=
  ⟨["date", "desc", "amt"],
   [[("date", Cell.str "01/15/2024"), ("desc", Cell.str "A"), ("amt", Cell.str "abc")],
    [("date", Cell.str "01/16/2024"), ("desc", Cell.str "B"), ("amt", Cell.str "7")]]⟩

/-- C8, instantiated. -/
theorem claim8_witness :
    ([⟨"2024-01-16", "B", 7, "Uncategorized"⟩] : List Record).length ≤
      tblC8.rows.length :=
  (claim8_ok tblC8 "date" "desc" "amt" none
    [⟨"2024-01-16", "B", 7, "Uncategorized"⟩] (by decide)).1

/-- Table for C9: mapped category column whose cell is whitespace text. -/
def tblC9 : Table :=
  ⟨["date", "desc", "amt", "cat"],
   [[("date", Cell.str "01/15/2024"), ("desc", Cell.str "X"), ("amt", Cell.str "5"),
     ("cat", Cell.str " ")]]⟩

/-- Claim C9 is false: with a mapped, present category column whose cell is
whitespace text, the surviving record's category is the empty string, not a
non-empty label. -/
theorem claim9_counterexample :
    clean_transaction_data tblC9 "date" "desc" "amt" (some "cat") =
      IngestResult.ok [⟨"2024-01-15", "X", 5, ""⟩] := by
  decide

/-- Claim C9 amended: the sentinel is used exactly when no usable category
column is supplied (none, empty name, or name not in the header); with a
usable one, a record's category is the trimmed stringified cell text of its
source row — which may be empty. -/
theorem claim9_amended :
    (∀ (tbl : Table) (dcol scol acol : String) (ccol : Option String) (out : List Record),
      (ccol = none ∨ ∃ c, ccol = some c ∧ (c = "" ∨ c ∉ tbl.header)) →
      clean_transaction_data tbl dcol scol acol ccol = IngestResult.ok out →
      ∀ rec ∈ out, rec.category = "Uncategorized") ∧
    (∀ (tbl : Table) (c dcol scol acol : String) (r : Row) (rec : Record),
      c ≠ "" → c ∈ tbl.header →
      rowClean dcol scol acol (categoryOf tbl (some c)) r = some rec →
      rec.category = stripStr (stringifyCell (cellOf r c))) := by
  constructor
  · intro tbl dcol scol acol ccol out hcc hok rec hrec
    have hcat : categoryOf tbl ccol = fun _ => "Uncategorized" := by
      rcases hcc with rfl | ⟨c, rfl, hc⟩
      · rfl
      · show (if c ≠ "" ∧ c ∈ tbl.header then fun r => stripStr (stringifyCell (cellOf r c))
          else fun _ => "Uncategorized") = fun _ => "Uncategorized"
        rcases hc with rfl | hc
        · rw [if_neg (fun hand => hand.1 rfl)]
        · rw [if_neg (fun hand => hc hand.2)]
    have hout := clean_transaction_data_ok tbl dcol scol acol ccol out hok
    rw [hout] at hrec
    obtain ⟨r, hr, hsome⟩ := List.mem_filterMap.mp hrec
    have hrc := rowClean_category dcol scol acol (categoryOf tbl ccol) r rec hsome
    rw [hrc, hcat]
  · intro tbl c dcol scol acol r rec hne hmem hsome
    have hrc := rowClean_category dcol scol acol (categoryOf tbl (some c)) r rec hsome
    rw [hrc]
    show (if c ≠ "" ∧ c ∈ tbl.header then fun r => stripStr (stringifyCell (cellOf r c))
      else fun _ => "Uncategorized") r = stripStr (stringifyCell (cellOf r c))
    rw [if_pos ⟨hne, hmem⟩]

/-- Amended C9, instantiated on the whitespace-category row. -/
theorem claim9_amended_witness :
    (⟨"2024-01-15", "X", 5, ""⟩ : Record).category =
      stripStr (stringifyCell (cellOf
        [("date", Cell.str "01/15/2024"), ("desc", Cell.str "X"), ("amt", Cell.str "5"),
         ("cat", Cell.str " ")] "cat")) :=
  claim9_amended.2 tblC9 "cat" "date" "desc" "amt"
    [("date", Cell.str "01/15/2024"), ("desc", Cell.str "X"), ("amt", Cell.str "5"),
     ("cat", Cell.str " ")]
    ⟨"2024-01-15", "X", 5, ""⟩ (by decide) (by decide) (by decide)

/-- Table for C10: the description cell is null. -/
def tblC10 : Table :=
  ⟨["date", "desc", "amt"],
   [[("date", Cell.str "01/15/2024"), ("desc", Cell.null), ("amt", Cell.str "5")]]⟩

/-- Claim C10: a null description cell stringifies to the literal text
"nan" before cleaning, so the normalizer's null branch is bypassed, the
text survives cleaning, passes the non-empty filter, and the row is
ingested with description "nan". -/
theorem claim10_ok :
    stringifyCell Cell.null = "nan" ∧
    clean_description_cell Cell.null = "" ∧
    clean_description (stringifyCell Cell.null) = "nan" ∧
    clean_transaction_data tblC10 "date" "desc" "amt" none =
      IngestResult.ok [⟨"2024-01-15", "nan", 5, "Uncategorized"⟩] := by
  decide

end BudgetTracker
